import Mathlib

/-!
Verification model of the Pulumi Kubernetes operator's stack controller
(`pkg/controller/stack/stack_controller.go`).

The reconciliation loop `Reconcile` is embedded as a pure function of
  * the Stack's spec / object metadata / status as fetched,
  * an `Env` record holding the results that the external collaborators
    (automation engine, git, resource store) return to each call site.
The function returns the list of operations performed (in order), the
requeue result and the error returned to controller-runtime.  Strings are
used for commits, permalinks and error messages; time is an abstract `Nat`.
-/

namespace StackModel

/-- Model of `shared.StackUpdateStatus`. -/
inductive StackUpdateStatus
  | succeeded
  | conflict
  | notFound
  | failed
deriving DecidableEq, Repr

/-- Modelled from the spec: the textual state values of `shared`
(`SucceededStackStateMessage`); the `shared` package itself is not in scope,
only its use sites. -/
def SucceededStackStateMessage : String := "succeeded"

/-- Modelled from the spec: the textual failure state value of `shared`
(`FailedStackStateMessage`). -/
def FailedStackStateMessage : String := "failed"

/-- Model of `shared.StackUpdateState` (the `lastUpdate` status block). -/
structure StackUpdateState where
  state : String := ""
  lastAttemptedCommit : String := ""
  lastSuccessfulCommit : String := ""
  permalink : String := ""
  lastResyncTime : Nat := 0
deriving DecidableEq, Repr

/-- Model of `shared.StackStatus`.  `outputs` is `Option` because Go
distinguishes a nil map from an empty one (`outs == nil` in `Reconcile`). -/
structure StackStatus where
  lastUpdate : Option StackUpdateState := none
  outputs : Option (List (String × String)) := none
deriving DecidableEq, Repr

/-- Model of `pulumiv1.InlineGitRepo` (the fields `Reconcile` branches on). -/
structure InlineGitRepo where
  projectRepo : String := ""
  commit : String := ""
  branch : String := ""
  continueResyncOnCommitMatch : Bool := false
deriving DecidableEq, Repr

/-- Model of `pulumiv1.SourceReference`. -/
structure SourceReference where
  apiVersion : String := ""
  kind : String := ""
  name : String := ""
deriving DecidableEq, Repr

/-- Model of `pulumiv1.StackSpec` (the fields the control loop reads). -/
structure StackSpec where
  stack : String := ""
  gitRepo : Option InlineGitRepo := none
  sourceRef : Option SourceReference := none
  refresh : Bool := false
  expectNoRefreshChanges : Bool := false
  destroyOnFinalize : Bool := false
  retryOnUpdateConflict : Bool := false
  useLocalStackOnly : Bool := false
  resyncFrequencySeconds : Int := 0
deriving DecidableEq, Repr

/-- The object metadata `Reconcile` consults: deletion timestamp and the
finalizer list. -/
structure StackMeta where
  deletionTimestampSet : Bool := false
  finalizers : List String := []
deriving DecidableEq, Repr

/-- `pulumiFinalizer` constant from the controller. -/
def pulumiFinalizer : String := "finalizer.stack.pulumi.com"

/-- Value of one stack output as handed back by the automation engine
(`auto.OutputMap` entry): a value (pre-JSON, abstracted to a string) and a
secrecy flag. -/
structure OutputValue where
  value : String := ""
  secret : Bool := false
deriving DecidableEq, Repr

/-- The requeue directive handed back to controller-runtime
(`reconcile.Result`); `0` is Go's zero value, meaning no requeue. -/
structure ReconcileResult where
  requeueAfterSeconds : Int := 0
deriving DecidableEq, Repr

/-- One operation performed by a reconciliation pass, in order of execution.
`writeStatus` carries the status object persisted by that write. -/
inductive Op
  | setupGitAuth
  | setupWorkdir
  | ensureStack
  | setEnvs
  | setSecretEnvs
  | destroy
  | removeStack
  | removeFinalizer
  | updateResource
  | waitForDeletion
  | addFinalizer
  | refresh
  | up
  | getLatest
  | writeStatus (st : StackStatus)
deriving DecidableEq, Repr

/-- Results the external collaborators return to each call site of one pass.
`Option String` fields are `some errMsg` when that call fails.  A single
field per call site suffices because each claim constrains one pass. -/
structure Env where
  gitAuthErr : Option String := none
  workdirResult : Except String String := .ok ""
  sourceResult : Except String String := .ok ""
  ensureErr : Option String := none
  setEnvsErr : Option String := none
  setSecretEnvsErr : Option String := none
  destroyErr : Option String := none
  removeStackErr : Option String := none
  updateResourceErr : Option String := none
  waitDeletionErr : Option String := none
  getLatestErr : Option String := none
  latestStatus : StackStatus := {}
  updateStatusErr : Option String := none
  infoResult : Except String String := .ok ""
  refreshResult : Except String String := .ok ""
  upStatus : StackUpdateStatus := .succeeded
  upPermalink : String := ""
  upOutputs : List (String × OutputValue) := []
  upErr : Option String := none
  marshal : String → Except String String := fun s => .ok s
  now : Nat := 0

/-- `DestroyStack`: run the automation engine's destroy, then remove the
managed stack entry; the first failure aborts. -/
def DestroyStack (env : Env) : List Op × Option String :=
  match env.destroyErr with
  | some e => ([Op.destroy], some e)
  | none =>
    match env.removeStackErr with
    | some e => ([Op.destroy, Op.removeStack], some e)
    | none => ([Op.destroy, Op.removeStack], none)

/-- `finalizeStack`: destroy the stack resources and stack, gated on
`destroyOnFinalize`. -/
def finalizeStack (spec : StackSpec) (env : Env) : List Op × Option String :=
  if spec.destroyOnFinalize then DestroyStack env else ([], none)

/-- `finalize`: run finalization; only on success remove the finalizer,
persist the update and wait (bounded) for the deletion to be observed. -/
def finalize (spec : StackSpec) (env : Env) : List Op × Option String :=
  match finalizeStack spec env with
  | (tr, some e) => (tr, some e)
  | (tr, none) =>
    match env.updateResourceErr with
    | some e => (tr ++ [Op.removeFinalizer, Op.updateResource], some e)
    | none =>
      match env.waitDeletionErr with
      | some e => (tr ++ [Op.removeFinalizer, Op.updateResource, Op.waitForDeletion], some e)
      | none => (tr ++ [Op.removeFinalizer, Op.updateResource, Op.waitForDeletion], none)

/-- `markStackFailed`: record a failed update on status.  Only
`lastAttemptedCommit`, `state`, `permalink` and `lastResyncTime` are set;
whatever else the status held (notably `lastSuccessfulCommit` and
`outputs`) is kept. -/
def markStackFailed (st : StackStatus) (currentCommit permalink : String) (now : Nat) :
    StackStatus :=
  let lu := st.lastUpdate.getD {}
  { st with
    lastUpdate := some
      { lu with
        lastAttemptedCommit := currentCommit
        state := FailedStackStateMessage
        permalink := permalink
        lastResyncTime := now } }

/-- Inner loop of `GetStackOutputs`: translate each output, substituting the
fixed sentinel for secret values; the first marshalling error aborts. -/
def getStackOutputsList (marshal : String → Except String String) :
    List (String × OutputValue) → Except String (List (String × String))
  | [] => .ok []
  | (k, v) :: rest =>
    match (if v.secret then Except.ok "\"[secret]\"" else marshal v.value) with
    | .error e => .error e
    | .ok val =>
      match getStackOutputsList marshal rest with
      | .error e => .error e
      | .ok tl => .ok ((k, val) :: tl)

/-- `GetStackOutputs`: Go's `o := make(shared.StackOutputs)` allocates a
non-nil map, so a successful call always returns `some` list (possibly
empty) — never the nil map. -/
def GetStackOutputs (marshal : String → Except String String)
    (outs : List (String × OutputValue)) : Except String (Option (List (String × String))) :=
  match getStackOutputsList marshal outs with
  | .error e => .error e
  | .ok l => .ok (some l)

/-- The status object persisted by the success path of `Reconcile` (step 5):
the freshly fetched status with the captured outputs, both commits set to
the current revision, state Succeeded, the run's permalink and the resync
timestamp. -/
def successStatus (env : Env) (currentCommit : String) (o : List (String × String)) :
    StackStatus :=
  { env.latestStatus with
    outputs := some o
    lastUpdate := some
      { state := SucceededStackStateMessage
        lastAttemptedCommit := currentCommit
        lastSuccessfulCommit := currentCommit
        permalink := env.upPermalink
        lastResyncTime := env.now } }

/-- Step 4 onwards of `Reconcile`: run `Up`, classify the outcome, and on
success capture outputs and commit the success status. -/
def reconcileUpStage (spec : StackSpec) (env : Env) (st : StackStatus)
    (currentCommit : String) (successResult : ReconcileResult) (tr : List Op) :
    List Op × ReconcileResult × Option String :=
  let tr := tr ++ [Op.up]
  match env.upStatus with
  | .conflict =>
    if spec.retryOnUpdateConflict then (tr, ⟨5⟩, none)
    else (tr, {}, none)
  | .notFound => (tr, ⟨5⟩, none)
  | _ =>
    match env.upErr with
    | some e =>
      let st' := markStackFailed st currentCommit "" env.now
      match env.updateStatusErr with
      | some e2 => (tr ++ [Op.writeStatus st'], {}, some (e2 ++ ": " ++ e))
      | none => (tr ++ [Op.writeStatus st'], {}, some e)
    | none =>
      match GetStackOutputs env.marshal env.upOutputs with
      | .error e => (tr, {}, some e)
      | .ok outs =>
        match outs with
        | none => (tr, {}, none)
        | some o =>
          match env.getLatestErr with
          | some e => (tr ++ [Op.getLatest], {}, some e)
          | none =>
            let st' := successStatus env currentCommit o
            match env.updateStatusErr with
            | some e => (tr ++ [Op.getLatest, Op.writeStatus st'], {}, some e)
            | none => (tr ++ [Op.getLatest, Op.writeStatus st'], successResult, none)

/-- The status persisted after a successful refresh: the freshly fetched
status with the refresh's permalink. -/
def refreshedStatus (env : Env) (permalink : String) : StackStatus :=
  let lu := env.latestStatus.lastUpdate.getD {}
  { env.latestStatus with lastUpdate := some { lu with permalink := permalink } }

/-- Step 3 of `Reconcile`: the optional refresh, then the update stage.  A
successful refresh re-fetches the resource and persists the permalink. -/
def reconcileRefreshStage (spec : StackSpec) (env : Env) (st : StackStatus)
    (currentCommit : String) (successResult : ReconcileResult) (tr : List Op) :
    List Op × ReconcileResult × Option String :=
  if spec.refresh then
    match env.refreshResult with
    | .error e =>
      let st' := markStackFailed st currentCommit "" env.now
      match env.updateStatusErr with
      | some e2 =>
        (tr ++ [Op.refresh, Op.writeStatus st'], {}, some (e2 ++ ": refreshing stack: " ++ e))
      | none => (tr ++ [Op.refresh, Op.writeStatus st'], {}, some ("refreshing stack: " ++ e))
    | .ok permalink =>
      match env.getLatestErr with
      | some e => (tr ++ [Op.refresh, Op.getLatest], {}, some e)
      | none =>
        let st' := refreshedStatus env permalink
        match env.updateStatusErr with
        | some e => (tr ++ [Op.refresh, Op.getLatest, Op.writeStatus st'], {}, some e)
        | none =>
          reconcileUpStage spec env st' currentCommit successResult
            (tr ++ [Op.refresh, Op.getLatest, Op.writeStatus st'])
  else reconcileUpStage spec env st currentCommit successResult tr

/-- The clamped resync delay as the source computes it (source lines
327-336): a non-zero value below 60 is raised to 60; when branch tracking
or forced continuous resync is active a zero value defaults to 60. -/
def clampedResync (trackBranch continueOnMatch : Bool) (v : Int) : Int :=
  let r1 : Int := if v ≠ 0 ∧ v < 60 then 60 else v
  if (trackBranch = true ∨ continueOnMatch = true) ∧ r1 = 0 then 60 else r1

/-- The branch-tracking skip test of `Reconcile`: only meaningful when the
status already records a `lastUpdate` (otherwise no skip), and only when the
recorded last successful commit equals the resolved one and continuous
resync is not forced. -/
def skipsOnCommitMatch (repo : InlineGitRepo) (st : StackStatus) (currentCommit : String) :
    Bool :=
  match st.lastUpdate with
  | some lu =>
    decide (0 < repo.branch.length) && decide (lu.lastSuccessfulCommit = currentCommit)
      && !repo.continueResyncOnCommitMatch
  | none => false

/-- The inline-git resync decision (source lines 322-359): compute the
clamped resync frequency, return early when branch tracking sees an
unchanged successful commit, otherwise remember the success requeue. -/
def reconcileRepoStage (spec : StackSpec) (env : Env) (st : StackStatus)
    (repoOpt : Option InlineGitRepo) (currentCommit : String) (tr : List Op) :
    List Op × ReconcileResult × Option String :=
  match repoOpt with
  | none => reconcileRefreshStage spec env st currentCommit {} tr
  | some repo =>
    let trackBranch : Bool := decide (0 < repo.branch.length)
    let resyncFreqSeconds : Int :=
      clampedResync trackBranch repo.continueResyncOnCommitMatch spec.resyncFrequencySeconds
    if skipsOnCommitMatch repo st currentCommit then (tr, ⟨resyncFreqSeconds⟩, none)
    else
      let successResult : ReconcileResult :=
        if trackBranch = true ∨ repo.continueResyncOnCommitMatch = true then ⟨resyncFreqSeconds⟩
        else {}
      reconcileRefreshStage spec env st currentCommit successResult tr

/-- Status written by `addDefaultPermalink`: the freshly fetched status with
the permalink from the engine's stack-info call. -/
def addDefaultPermalinkStatus (env : Env) (url : String) : StackStatus :=
  let lu := env.latestStatus.lastUpdate.getD {}
  { env.latestStatus with lastUpdate := some { lu with permalink := url } }

/-- The deletion / finalizer branch of `Reconcile` (source lines 292-314).
A deleted stack with the finalizer present is finalized and the pass
returns; a deleted stack without it falls through to the normal flow.  A
live stack missing the finalizer gets it added and a default permalink
populated before continuing. -/
def reconcileLifecycleStage (spec : StackSpec) (meta : StackMeta) (status0 : StackStatus)
    (env : Env) (repoOpt : Option InlineGitRepo) (currentCommit : String) (tr : List Op) :
    List Op × ReconcileResult × Option String :=
  if meta.deletionTimestampSet then
    if pulumiFinalizer ∈ meta.finalizers then
      match finalize spec env with
      | (ftr, ferr) => (tr ++ ftr, {}, ferr)
    else reconcileRepoStage spec env status0 repoOpt currentCommit tr
  else
    if pulumiFinalizer ∈ meta.finalizers then
      reconcileRepoStage spec env status0 repoOpt currentCommit tr
    else
      match env.getLatestErr with
      | some e => (tr ++ [Op.getLatest], {}, some e)
      | none =>
        match env.updateResourceErr with
        | some e => (tr ++ [Op.getLatest, Op.addFinalizer, Op.updateResource], {}, some e)
        | none =>
          let tr := tr ++ [Op.getLatest, Op.addFinalizer, Op.updateResource]
          match env.infoResult with
          | .error e => (tr ++ [Op.getLatest], {}, some e)
          | .ok url =>
            let st' := addDefaultPermalinkStatus env url
            match env.updateStatusErr with
            | some e => (tr ++ [Op.getLatest, Op.writeStatus st'], {}, some e)
            | none =>
              reconcileRepoStage spec env st' repoOpt currentCommit
                (tr ++ [Op.getLatest, Op.writeStatus st'])

/-- Steps after the workspace is set up: ensure the stack, inject the legacy
ConfigMap/Secret environment (either failure marks the stack failed), then
the lifecycle branch. -/
def afterWorkdir (spec : StackSpec) (meta : StackMeta) (status0 : StackStatus) (env : Env)
    (repoOpt : Option InlineGitRepo) (currentCommit : String) (tr : List Op) :
    List Op × ReconcileResult × Option String :=
  match env.ensureErr with
  | some e => (tr ++ [Op.ensureStack], {}, some e)
  | none =>
    match env.setEnvsErr with
    | some e =>
      let st' := markStackFailed status0 currentCommit "" env.now
      match env.updateStatusErr with
      | some e2 =>
        (tr ++ [Op.ensureStack, Op.setEnvs, Op.writeStatus st'], {},
          some (e2 ++ ": could not find ConfigMap for Envs: " ++ e))
      | none => (tr ++ [Op.ensureStack, Op.setEnvs, Op.writeStatus st'], {}, some e)
    | none =>
      match env.setSecretEnvsErr with
      | some e =>
        let st' := markStackFailed status0 currentCommit "" env.now
        match env.updateStatusErr with
        | some e2 =>
          (tr ++ [Op.ensureStack, Op.setEnvs, Op.setSecretEnvs, Op.writeStatus st'], {},
            some (e2 ++ ": could not find Secret for SecretEnvs: " ++ e))
        | none =>
          (tr ++ [Op.ensureStack, Op.setEnvs, Op.setSecretEnvs, Op.writeStatus st'], {}, some e)
      | none =>
        reconcileLifecycleStage spec meta status0 env repoOpt currentCommit
          (tr ++ [Op.ensureStack, Op.setEnvs, Op.setSecretEnvs])

/-- One reconciliation pass over a fetched Stack (`ReconcileStack.Reconcile`,
after the initial Get succeeded).  Returns the operations performed, the
requeue directive and the returned error. -/
def Reconcile (spec : StackSpec) (meta : StackMeta) (status0 : StackStatus) (env : Env) :
    List Op × ReconcileResult × Option String :=
  match spec.gitRepo, spec.sourceRef with
  | some repo, none =>
    if meta.deletionTimestampSet = false ∧ repo.commit = "" ∧ repo.branch = "" then
      ([], {},
        some "Stack CustomResource needs to specify either branch or commit for the tracking repo.")
    else
      match env.gitAuthErr with
      | some e => ([Op.setupGitAuth], {}, some e)
      | none =>
        match env.workdirResult with
        | .error e => ([Op.setupGitAuth, Op.setupWorkdir], {}, some e)
        | .ok currentCommit =>
          afterWorkdir spec meta status0 env (some repo) currentCommit
            [Op.setupGitAuth, Op.setupWorkdir]
  | none, some _ =>
    match env.sourceResult with
    | .error e => ([Op.setupWorkdir], {}, some e)
    | .ok revision => afterWorkdir spec meta status0 env none revision [Op.setupWorkdir]
  | _, _ => ([], {}, some "exactly one of .spec.projectRepo and .spec.sourceRef should be supplied")

theorem clampedResync_eq_max (c : Bool) (v : Int) :
    clampedResync true c v = max 60 v := by
  unfold clampedResync
  dsimp only
  split_ifs <;> (simp_all; try omega)

/-- A git-sourced pass whose auth and workspace setup succeed proceeds to
`afterWorkdir` with the resolved commit. -/
theorem reconcile_git_ok (spec : StackSpec) (meta : StackMeta) (status0 : StackStatus)
    (env : Env) (repo : InlineGitRepo) (c : String)
    (hrepo : spec.gitRepo = some repo) (hsrc : spec.sourceRef = none)
    (hval : ¬(meta.deletionTimestampSet = false ∧ repo.commit = "" ∧ repo.branch = ""))
    (hga : env.gitAuthErr = none) (hwd : env.workdirResult = .ok c) :
    Reconcile spec meta status0 env =
      afterWorkdir spec meta status0 env (some repo) c [Op.setupGitAuth, Op.setupWorkdir] := by
  simp [Reconcile, hrepo, hsrc, hval, hga, hwd]

/-- When ensure/env-injection succeed, `afterWorkdir` reaches the lifecycle
stage. -/
theorem afterWorkdir_ok (spec : StackSpec) (meta : StackMeta) (status0 : StackStatus)
    (env : Env) (repoOpt : Option InlineGitRepo) (c : String) (tr : List Op)
    (hens : env.ensureErr = none) (he1 : env.setEnvsErr = none)
    (he2 : env.setSecretEnvsErr = none) :
    afterWorkdir spec meta status0 env repoOpt c tr =
      reconcileLifecycleStage spec meta status0 env repoOpt c
        (tr ++ [Op.ensureStack, Op.setEnvs, Op.setSecretEnvs]) := by
  simp [afterWorkdir, hens, he1, he2]

/-- A live stack that already carries the finalizer goes straight to the
repo/resync stage with its fetched status. -/
theorem lifecycle_live_finalizer (spec : StackSpec) (meta : StackMeta) (status0 : StackStatus)
    (env : Env) (repoOpt : Option InlineGitRepo) (c : String) (tr : List Op)
    (hdel : meta.deletionTimestampSet = false) (hfin : pulumiFinalizer ∈ meta.finalizers) :
    reconcileLifecycleStage spec meta status0 env repoOpt c tr =
      reconcileRepoStage spec env status0 repoOpt c tr := by
  simp [reconcileLifecycleStage, hdel, hfin]

/-- A deleted stack with the finalizer present runs `finalize` and returns. -/
theorem lifecycle_deleted_finalizer (spec : StackSpec) (meta : StackMeta)
    (status0 : StackStatus) (env : Env) (repoOpt : Option InlineGitRepo) (c : String)
    (tr : List Op) (hdel : meta.deletionTimestampSet = true)
    (hfin : pulumiFinalizer ∈ meta.finalizers) :
    reconcileLifecycleStage spec meta status0 env repoOpt c tr =
      (tr ++ (finalize spec env).1, {}, (finalize spec env).2) := by
  simp [reconcileLifecycleStage, hdel, hfin]

/-- A deleted stack without the finalizer falls through to the repo stage
(it does not return early). -/
theorem lifecycle_deleted_no_finalizer (spec : StackSpec) (meta : StackMeta)
    (status0 : StackStatus) (env : Env) (repoOpt : Option InlineGitRepo) (c : String)
    (tr : List Op) (hdel : meta.deletionTimestampSet = true)
    (hfin : pulumiFinalizer ∉ meta.finalizers) :
    reconcileLifecycleStage spec meta status0 env repoOpt c tr =
      reconcileRepoStage spec env status0 repoOpt c tr := by
  simp [reconcileLifecycleStage, hdel, hfin]

/-- With branch tracking on, a recorded last update whose successful commit
equals the resolved one, and continuous resync off, the repo stage returns
the clamped poll requeue without proceeding. -/
theorem repoStage_skip (spec : StackSpec) (env : Env) (st : StackStatus)
    (repo : InlineGitRepo) (c : String) (tr : List Op) (lu : StackUpdateState)
    (hbranch : 0 < repo.branch.length) (hlu : st.lastUpdate = some lu)
    (hmatch : lu.lastSuccessfulCommit = c) (hcont : repo.continueResyncOnCommitMatch = false) :
    reconcileRepoStage spec env st (some repo) c tr =
      (tr, ({ requeueAfterSeconds := clampedResync true false spec.resyncFrequencySeconds } :
        ReconcileResult), none) := by
  have hs : skipsOnCommitMatch repo st c = true := by
    simp [skipsOnCommitMatch, hlu, hmatch, hcont, hbranch]
  simp [reconcileRepoStage, hs, clampedResync, hcont, hbranch]

/-- When the skip test is false the repo stage proceeds to the refresh stage
(with some remembered success requeue). -/
theorem repoStage_noskip (spec : StackSpec) (env : Env) (st : StackStatus)
    (repo : InlineGitRepo) (c : String) (tr : List Op)
    (hns : skipsOnCommitMatch repo st c = false) :
    reconcileRepoStage spec env st (some repo) c tr =
      reconcileRefreshStage spec env st c
        (if decide (0 < repo.branch.length) = true ∨ repo.continueResyncOnCommitMatch = true then
          { requeueAfterSeconds :=
              clampedResync (decide (0 < repo.branch.length)) repo.continueResyncOnCommitMatch
                spec.resyncFrequencySeconds }
        else {}) tr := by
  simp only [reconcileRepoStage, hns, Bool.false_eq_true, if_false]

/-- With refresh disabled the refresh stage is the update stage. -/
theorem refreshStage_off (spec : StackSpec) (env : Env) (st : StackStatus) (c : String)
    (sr : ReconcileResult) (tr : List Op) (href : spec.refresh = false) :
    reconcileRefreshStage spec env st c sr tr = reconcileUpStage spec env st c sr tr := by
  simp [reconcileRefreshStage, href]

/-- With refresh enabled and succeeding (and the status write after it
succeeding), the refresh stage continues to the update stage with the
permalink-refreshed status. -/
theorem refreshStage_ok (spec : StackSpec) (env : Env) (st : StackStatus) (c : String)
    (sr : ReconcileResult) (tr : List Op) (p : String) (href : spec.refresh = true)
    (hr : env.refreshResult = .ok p) (hg : env.getLatestErr = none)
    (hu : env.updateStatusErr = none) :
    reconcileRefreshStage spec env st c sr tr =
      reconcileUpStage spec env (refreshedStatus env p) c sr
        (tr ++ [Op.refresh, Op.getLatest, Op.writeStatus (refreshedStatus env p)]) := by
  simp [reconcileRefreshStage, href, hr, hg, hu]

/-- Whatever the outcome, the update stage runs `Up`. -/
theorem upStage_up_mem (spec : StackSpec) (env : Env) (st : StackStatus) (c : String)
    (sr : ReconcileResult) (tr : List Op) :
    Op.up ∈ (reconcileUpStage spec env st c sr tr).1 := by
  unfold reconcileUpStage
  dsimp only
  repeat' split
  all_goals simp

/-- A Conflict outcome returns immediately: requeue after 5 seconds when
`retryOnUpdateConflict` is set, otherwise no requeue; never an error. -/
theorem upStage_conflict (spec : StackSpec) (env : Env) (st : StackStatus) (c : String)
    (sr : ReconcileResult) (tr : List Op) (h : env.upStatus = .conflict) :
    reconcileUpStage spec env st c sr tr =
      (tr ++ [Op.up],
        (if spec.retryOnUpdateConflict then ({ requeueAfterSeconds := 5 } : ReconcileResult)
          else {}), none) := by
  simp only [reconcileUpStage, h]
  split_ifs <;> rfl

/-- A NotFound outcome returns a 5-second requeue and no error,
unconditionally. -/
theorem upStage_notFound (spec : StackSpec) (env : Env) (st : StackStatus) (c : String)
    (sr : ReconcileResult) (tr : List Op) (h : env.upStatus = .notFound) :
    reconcileUpStage spec env st c sr tr =
      (tr ++ [Op.up], ({ requeueAfterSeconds := 5 } : ReconcileResult), none) := by
  simp [reconcileUpStage, h]

/-- A successful `Up` whose outputs translate to `some o` and whose final
fetch and status write succeed ends the pass with the success status
persisted and the remembered requeue returned. -/
theorem upStage_success (spec : StackSpec) (env : Env) (st : StackStatus) (c : String)
    (sr : ReconcileResult) (tr : List Op) (o : List (String × String))
    (hst : env.upStatus = .succeeded) (hue : env.upErr = none)
    (ho : GetStackOutputs env.marshal env.upOutputs = .ok (some o))
    (hg : env.getLatestErr = none) (hu : env.updateStatusErr = none) :
    reconcileUpStage spec env st c sr tr =
      (tr ++ [Op.up, Op.getLatest, Op.writeStatus (successStatus env c o)], sr, none) := by
  simp [reconcileUpStage, hst, hue, ho, hg, hu]

/-- A failed `Up` marks the stack failed (persisting the failure status
computed from the in-memory status) and returns the underlying error. -/
theorem upStage_failed (spec : StackSpec) (env : Env) (st : StackStatus) (c : String)
    (sr : ReconcileResult) (tr : List Op) (e : String)
    (hst : env.upStatus = .failed) (hue : env.upErr = some e)
    (hu : env.updateStatusErr = none) :
    reconcileUpStage spec env st c sr tr =
      (tr ++ [Op.up, Op.writeStatus (markStackFailed st c "" env.now)], {}, some e) := by
  simp [reconcileUpStage, hst, hue, hu]

/-- Operations the update stage can add to the trace. -/
theorem upStage_mem_new (spec : StackSpec) (env : Env) (st : StackStatus) (c : String)
    (sr : ReconcileResult) (tr : List Op) (x : Op)
    (hmem : x ∈ (reconcileUpStage spec env st c sr tr).1) :
    x ∈ tr ∨ x = Op.up ∨ x = Op.getLatest ∨ ∃ s, x = Op.writeStatus s := by
  unfold reconcileUpStage at hmem
  dsimp only at hmem
  repeat' split at hmem
  all_goals simp at hmem
  all_goals tauto

/-- Operations the refresh stage can add to the trace. -/
theorem refreshStage_mem_new (spec : StackSpec) (env : Env) (st : StackStatus) (c : String)
    (sr : ReconcileResult) (tr : List Op) (x : Op)
    (hmem : x ∈ (reconcileRefreshStage spec env st c sr tr).1) :
    x ∈ tr ∨ x = Op.up ∨ x = Op.getLatest ∨ x = Op.refresh ∨ ∃ s, x = Op.writeStatus s := by
  unfold reconcileRefreshStage at hmem
  dsimp only at hmem
  repeat' split at hmem
  all_goals
    first
      | (have h2 := upStage_mem_new _ _ _ _ _ _ _ hmem; simp at h2; tauto)
      | (simp at hmem; tauto)

/-- Operations the repo/resync stage can add to the trace. -/
theorem repoStage_mem_new (spec : StackSpec) (env : Env) (st : StackStatus)
    (repoOpt : Option InlineGitRepo) (c : String) (tr : List Op) (x : Op)
    (hmem : x ∈ (reconcileRepoStage spec env st repoOpt c tr).1) :
    x ∈ tr ∨ x = Op.up ∨ x = Op.getLatest ∨ x = Op.refresh ∨ ∃ s, x = Op.writeStatus s := by
  unfold reconcileRepoStage at hmem
  dsimp only at hmem
  repeat' split at hmem
  all_goals
    first
      | (have h2 := refreshStage_mem_new _ _ _ _ _ _ _ hmem; simp at h2; tauto)
      | (simp at hmem; tauto)

/-- Operations the lifecycle stage can add to the trace, when the pass is
not a deletion with the finalizer present. -/
theorem lifecycle_mem_new (spec : StackSpec) (meta : StackMeta) (status0 : StackStatus)
    (env : Env) (repoOpt : Option InlineGitRepo) (c : String) (tr : List Op) (x : Op)
    (hnf : ¬(meta.deletionTimestampSet = true ∧ pulumiFinalizer ∈ meta.finalizers))
    (hmem : x ∈ (reconcileLifecycleStage spec meta status0 env repoOpt c tr).1) :
    x ∈ tr ∨ x = Op.up ∨ x = Op.getLatest ∨ x = Op.refresh ∨ x = Op.addFinalizer ∨
      x = Op.updateResource ∨ ∃ s, x = Op.writeStatus s := by
  unfold reconcileLifecycleStage at hmem
  dsimp only at hmem
  repeat' split at hmem
  all_goals
    first
      | (have h2 := repoStage_mem_new _ _ _ _ _ _ _ hmem; simp at h2; tauto)
      | (simp at hmem; tauto)

/-- Operations `afterWorkdir` can add to the trace, under the same
proviso. -/
theorem afterWorkdir_mem_new (spec : StackSpec) (meta : StackMeta) (status0 : StackStatus)
    (env : Env) (repoOpt : Option InlineGitRepo) (c : String) (tr : List Op) (x : Op)
    (hnf : ¬(meta.deletionTimestampSet = true ∧ pulumiFinalizer ∈ meta.finalizers))
    (hmem : x ∈ (afterWorkdir spec meta status0 env repoOpt c tr).1) :
    x ∈ tr ∨ x = Op.ensureStack ∨ x = Op.setEnvs ∨ x = Op.setSecretEnvs ∨ x = Op.up ∨
    x = Op.getLatest ∨ x = Op.refresh ∨ x = Op.addFinalizer ∨ x = Op.updateResource ∨
    ∃ s, x = Op.writeStatus s := by
  unfold afterWorkdir at hmem
  repeat' split at hmem
  all_goals
    first
      | (have h2 := lifecycle_mem_new _ _ _ _ _ _ _ _ hnf hmem; simp at h2; tauto)
      | (simp at hmem; tauto)

set_option maxHeartbeats 1000000 in
/-- Operations a whole pass can perform, when it is not a deletion with the
finalizer present: never destroy / remove-stack / finalizer removal /
deletion wait. -/
theorem reconcile_mem_new (spec : StackSpec) (meta : StackMeta) (status0 : StackStatus)
    (env : Env) (x : Op)
    (hnf : ¬(meta.deletionTimestampSet = true ∧ pulumiFinalizer ∈ meta.finalizers))
    (hmem : x ∈ (Reconcile spec meta status0 env).1) :
    x = Op.setupGitAuth ∨ x = Op.setupWorkdir ∨ x = Op.ensureStack ∨ x = Op.setEnvs ∨
    x = Op.setSecretEnvs ∨ x = Op.up ∨ x = Op.getLatest ∨ x = Op.refresh ∨
    x = Op.addFinalizer ∨ x = Op.updateResource ∨ ∃ s, x = Op.writeStatus s := by
  unfold Reconcile at hmem
  repeat' split at hmem
  all_goals
    first
      | (simp at hmem; done)
      | (simp at hmem; tauto)
      | (have h2 := afterWorkdir_mem_new _ _ _ _ _ _ _ _ hnf hmem; simp at h2; tauto)

/-- Unless the pass is a deletion with the finalizer present, no
finalization operation (destroy, remove-stack, finalizer removal, deletion
wait) is ever performed. -/
theorem reconcile_no_finalize_ops (spec : StackSpec) (meta : StackMeta)
    (status0 : StackStatus) (env : Env)
    (hnf : ¬(meta.deletionTimestampSet = true ∧ pulumiFinalizer ∈ meta.finalizers)) :
    Op.destroy ∉ (Reconcile spec meta status0 env).1 ∧
    Op.removeStack ∉ (Reconcile spec meta status0 env).1 ∧
    Op.removeFinalizer ∉ (Reconcile spec meta status0 env).1 ∧
    Op.waitForDeletion ∉ (Reconcile spec meta status0 env).1 := by
  refine ⟨?_, ?_, ?_, ?_⟩ <;> intro hmem <;>
    (have h := reconcile_mem_new spec meta status0 env _ hnf hmem;
     rcases h with h|h|h|h|h|h|h|h|h|h|⟨s, h⟩ <;> simp at h)

/-- Composition: a git-sourced pass whose setup, lifecycle and (possible)
refresh all continue reaches the update stage with the resolved commit. -/
theorem reconcile_reaches_upStage (spec : StackSpec) (meta : StackMeta) (status0 : StackStatus)
    (env : Env) (repo : InlineGitRepo) (c : String)
    (hrepo : spec.gitRepo = some repo) (hsrc : spec.sourceRef = none)
    (hval : ¬(meta.deletionTimestampSet = false ∧ repo.commit = "" ∧ repo.branch = ""))
    (hga : env.gitAuthErr = none) (hwd : env.workdirResult = .ok c)
    (hens : env.ensureErr = none) (he1 : env.setEnvsErr = none)
    (he2 : env.setSecretEnvsErr = none)
    (hlife : (meta.deletionTimestampSet = false ∧ pulumiFinalizer ∈ meta.finalizers) ∨
      (meta.deletionTimestampSet = true ∧ pulumiFinalizer ∉ meta.finalizers))
    (hns : skipsOnCommitMatch repo status0 c = false)
    (href : spec.refresh = true →
      (∃ p, env.refreshResult = .ok p) ∧ env.getLatestErr = none ∧
        env.updateStatusErr = none) :
    ∃ st sr tr, Reconcile spec meta status0 env = reconcileUpStage spec env st c sr tr := by
  rw [reconcile_git_ok spec meta status0 env repo c hrepo hsrc hval hga hwd,
    afterWorkdir_ok spec meta status0 env (some repo) c _ hens he1 he2]
  have hlc :
      reconcileLifecycleStage spec meta status0 env (some repo) c
          ([Op.setupGitAuth, Op.setupWorkdir] ++ [Op.ensureStack, Op.setEnvs, Op.setSecretEnvs]) =
        reconcileRepoStage spec env status0 (some repo) c
          ([Op.setupGitAuth, Op.setupWorkdir] ++ [Op.ensureStack, Op.setEnvs, Op.setSecretEnvs]) := by
    rcases hlife with ⟨h1, h2⟩ | ⟨h1, h2⟩
    · exact lifecycle_live_finalizer spec meta status0 env (some repo) c _ h1 h2
    · exact lifecycle_deleted_no_finalizer spec meta status0 env (some repo) c _ h1 h2
  rw [hlc, repoStage_noskip spec env status0 repo c _ hns]
  by_cases hrf : spec.refresh = true
  · obtain ⟨⟨p, hp⟩, hg, hu⟩ := href hrf
    rw [refreshStage_ok spec env status0 c _ _ p hrf hp hg hu]
    exact ⟨_, _, _, rfl⟩
  · rw [refreshStage_off spec env status0 c _ _ (by simpa using hrf)]
    exact ⟨_, _, _, rfl⟩

/-- C4: a pass whose `Up` yields Conflict requeues after 5 seconds without
error when `retryOnUpdateConflict` is set, and returns no error and no
requeue otherwise; a pass whose `Up` yields NotFound requeues after the same
5 seconds without error, regardless of that flag. -/
theorem C4_conflict_notfound_requeue (spec : StackSpec) (meta : StackMeta)
    (status0 : StackStatus) (env : Env) (repo : InlineGitRepo) (c : String)
    (hrepo : spec.gitRepo = some repo) (hsrc : spec.sourceRef = none)
    (hval : ¬(meta.deletionTimestampSet = false ∧ repo.commit = "" ∧ repo.branch = ""))
    (hga : env.gitAuthErr = none) (hwd : env.workdirResult = .ok c)
    (hens : env.ensureErr = none) (he1 : env.setEnvsErr = none)
    (he2 : env.setSecretEnvsErr = none)
    (hlife : (meta.deletionTimestampSet = false ∧ pulumiFinalizer ∈ meta.finalizers) ∨
      (meta.deletionTimestampSet = true ∧ pulumiFinalizer ∉ meta.finalizers))
    (hns : skipsOnCommitMatch repo status0 c = false)
    (href : spec.refresh = true →
      (∃ p, env.refreshResult = .ok p) ∧ env.getLatestErr = none ∧
        env.updateStatusErr = none) :
    (env.upStatus = .conflict →
      (Reconcile spec meta status0 env).2 =
        ((if spec.retryOnUpdateConflict then ({ requeueAfterSeconds := 5 } : ReconcileResult)
          else {}), none)) ∧
    (env.upStatus = .notFound →
      (Reconcile spec meta status0 env).2 =
        (({ requeueAfterSeconds := 5 } : ReconcileResult), none)) := by
  obtain ⟨st, sr, tr, heq⟩ :=
    reconcile_reaches_upStage spec meta status0 env repo c hrepo hsrc hval hga hwd hens he1
      he2 hlife hns href
  constructor
  · intro hc
    rw [heq, upStage_conflict spec env st c sr tr hc]
  · intro hn
    rw [heq, upStage_notFound spec env st c sr tr hn]

/-- Witness for C4 at a concrete input: Conflict outcome with
`retryOnUpdateConflict = true` yields a 5-second requeue and no error. -/
theorem C4_conflict_notfound_requeue_witness :
    (Reconcile
      { gitRepo := some { branch := "main" }, retryOnUpdateConflict := true }
      { finalizers := [pulumiFinalizer] } {}
      { workdirResult := .ok "abc", upStatus := .conflict }).2 =
      (({ requeueAfterSeconds := 5 } : ReconcileResult), none) := by
  have h :=
    (C4_conflict_notfound_requeue
      { gitRepo := some { branch := "main" }, retryOnUpdateConflict := true }
      { finalizers := [pulumiFinalizer] } {}
      { workdirResult := .ok "abc", upStatus := .conflict }
      { branch := "main" } "abc" rfl rfl (by simp) rfl rfl rfl rfl rfl
      (Or.inl ⟨rfl, by simp⟩) rfl (by simp)).1 rfl
  simpa using h

/-- C10: the revision-unchanged skip requires a recorded `LastUpdate`; a
pass whose status has none (e.g. the first reconciliation) always proceeds
to run the update, even with branch tracking enabled. -/
theorem C10_no_lastUpdate_runs_update (spec : StackSpec) (meta : StackMeta)
    (status0 : StackStatus) (env : Env) (repo : InlineGitRepo) (c : String)
    (hrepo : spec.gitRepo = some repo) (hsrc : spec.sourceRef = none)
    (hval : ¬(meta.deletionTimestampSet = false ∧ repo.commit = "" ∧ repo.branch = ""))
    (hga : env.gitAuthErr = none) (hwd : env.workdirResult = .ok c)
    (hens : env.ensureErr = none) (he1 : env.setEnvsErr = none)
    (he2 : env.setSecretEnvsErr = none)
    (hlife : (meta.deletionTimestampSet = false ∧ pulumiFinalizer ∈ meta.finalizers) ∨
      (meta.deletionTimestampSet = true ∧ pulumiFinalizer ∉ meta.finalizers))
    (href : spec.refresh = true →
      (∃ p, env.refreshResult = .ok p) ∧ env.getLatestErr = none ∧
        env.updateStatusErr = none)
    (hlu : status0.lastUpdate = none) :
    Op.up ∈ (Reconcile spec meta status0 env).1 := by
  have hns : skipsOnCommitMatch repo status0 c = false := by
    simp [skipsOnCommitMatch, hlu]
  obtain ⟨st, sr, tr, heq⟩ :=
    reconcile_reaches_upStage spec meta status0 env repo c hrepo hsrc hval hga hwd hens he1
      he2 hlife hns href
  rw [heq]
  exact upStage_up_mem spec env st c sr tr

/-- Witness for C10 at a concrete input: branch tracking on `main`, no prior
status, commit `abc` resolved — the update runs. -/
theorem C10_no_lastUpdate_runs_update_witness :
    Op.up ∈
      (Reconcile { gitRepo := some { branch := "main" } }
        { finalizers := [pulumiFinalizer] } {}
        { workdirResult := .ok "abc" }).1 :=
  C10_no_lastUpdate_runs_update { gitRepo := some { branch := "main" } }
    { finalizers := [pulumiFinalizer] } {} { workdirResult := .ok "abc" }
    { branch := "main" } "abc" rfl rfl (by simp) rfl rfl rfl rfl rfl
    (Or.inl ⟨rfl, by simp⟩) (by simp) rfl

/-- C2 (counterexample): a deleted Stack whose finalizer list does not
contain the controller's finalizer does NOT stop; at this concrete input the
pass still runs the update (`Op.up` is performed), contradicting "the pass
does nothing further and returns". -/
theorem C2_deleted_no_finalizer_counterexample :
    Op.up ∈
      (Reconcile { gitRepo := some { commit := "abc" } } { deletionTimestampSet := true } {}
        { workdirResult := .ok "abc" }).1 := by decide

/-- C2 (amended): on a pass whose deletion timestamp is set and whose
finalizer is absent, no finalization is performed (no destroy, no
remove-stack, no finalizer removal, no deletion wait), but the pass does not
return early: it falls through to the normal flow and (when the remaining
steps continue) runs the update. -/
theorem C2_deleted_no_finalizer_continues (spec : StackSpec) (meta : StackMeta)
    (status0 : StackStatus) (env : Env) (repo : InlineGitRepo) (c : String)
    (hdel : meta.deletionTimestampSet = true) (hfin : pulumiFinalizer ∉ meta.finalizers)
    (hrepo : spec.gitRepo = some repo) (hsrc : spec.sourceRef = none)
    (hga : env.gitAuthErr = none) (hwd : env.workdirResult = .ok c)
    (hens : env.ensureErr = none) (he1 : env.setEnvsErr = none)
    (he2 : env.setSecretEnvsErr = none)
    (hns : skipsOnCommitMatch repo status0 c = false)
    (href : spec.refresh = true →
      (∃ p, env.refreshResult = .ok p) ∧ env.getLatestErr = none ∧
        env.updateStatusErr = none) :
    (Op.destroy ∉ (Reconcile spec meta status0 env).1 ∧
      Op.removeStack ∉ (Reconcile spec meta status0 env).1 ∧
      Op.removeFinalizer ∉ (Reconcile spec meta status0 env).1 ∧
      Op.waitForDeletion ∉ (Reconcile spec meta status0 env).1) ∧
    Op.up ∈ (Reconcile spec meta status0 env).1 := by
  have hnf : ¬(meta.deletionTimestampSet = true ∧ pulumiFinalizer ∈ meta.finalizers) := by
    simp [hfin]
  refine ⟨reconcile_no_finalize_ops spec meta status0 env hnf, ?_⟩
  have hval : ¬(meta.deletionTimestampSet = false ∧ repo.commit = "" ∧ repo.branch = "") := by
    simp [hdel]
  obtain ⟨st, sr, tr, heq⟩ :=
    reconcile_reaches_upStage spec meta status0 env repo c hrepo hsrc hval hga hwd hens he1
      he2 (Or.inr ⟨hdel, hfin⟩) hns href
  rw [heq]
  exact upStage_up_mem spec env st c sr tr

/-- Witness for the amended C2 at a concrete input: deletion requested,
finalizer absent — no finalization operation happens yet the update runs. -/
theorem C2_deleted_no_finalizer_continues_witness :
    (Op.destroy ∉
        (Reconcile { gitRepo := some { commit := "abc" } } { deletionTimestampSet := true } {}
          { workdirResult := .ok "abc" }).1 ∧
      Op.removeStack ∉
        (Reconcile { gitRepo := some { commit := "abc" } } { deletionTimestampSet := true } {}
          { workdirResult := .ok "abc" }).1 ∧
      Op.removeFinalizer ∉
        (Reconcile { gitRepo := some { commit := "abc" } } { deletionTimestampSet := true } {}
          { workdirResult := .ok "abc" }).1 ∧
      Op.waitForDeletion ∉
        (Reconcile { gitRepo := some { commit := "abc" } } { deletionTimestampSet := true } {}
          { workdirResult := .ok "abc" }).1) ∧
    Op.up ∈
      (Reconcile { gitRepo := some { commit := "abc" } } { deletionTimestampSet := true } {}
        { workdirResult := .ok "abc" }).1 :=
  C2_deleted_no_finalizer_continues { gitRepo := some { commit := "abc" } }
    { deletionTimestampSet := true } {} { workdirResult := .ok "abc" }
    { commit := "abc" } "abc" rfl (by simp) rfl rfl rfl rfl rfl rfl rfl rfl (by simp)

/-- C3: a finalization pass with `destroyOnFinalize = true` and the
finalizer present runs destroy and remove-stack, in that order, before the
finalizer is removed and persisted; if destroy or remove-stack fails the
finalizer is never removed in that pass. -/
theorem C3_destroy_before_finalizer_removal (spec : StackSpec) (meta : StackMeta)
    (status0 : StackStatus) (env : Env) (repo : InlineGitRepo) (c : String)
    (hrepo : spec.gitRepo = some repo) (hsrc : spec.sourceRef = none)
    (hga : env.gitAuthErr = none) (hwd : env.workdirResult = .ok c)
    (hens : env.ensureErr = none) (he1 : env.setEnvsErr = none)
    (he2 : env.setSecretEnvsErr = none)
    (hdel : meta.deletionTimestampSet = true) (hfin : pulumiFinalizer ∈ meta.finalizers)
    (hdof : spec.destroyOnFinalize = true) :
    ((env.destroyErr = none ∧ env.removeStackErr = none) →
      ∃ rest, (Reconcile spec meta status0 env).1 =
        [Op.setupGitAuth, Op.setupWorkdir, Op.ensureStack, Op.setEnvs, Op.setSecretEnvs,
          Op.destroy, Op.removeStack, Op.removeFinalizer, Op.updateResource] ++ rest) ∧
    ((env.destroyErr ≠ none ∨ env.removeStackErr ≠ none) →
      Op.removeFinalizer ∉ (Reconcile spec meta status0 env).1) := by
  have hval : ¬(meta.deletionTimestampSet = false ∧ repo.commit = "" ∧ repo.branch = "") := by
    simp [hdel]
  rw [reconcile_git_ok spec meta status0 env repo c hrepo hsrc hval hga hwd,
    afterWorkdir_ok spec meta status0 env (some repo) c _ hens he1 he2,
    lifecycle_deleted_finalizer spec meta status0 env (some repo) c _ hdel hfin]
  constructor
  · rintro ⟨hd, hr⟩
    rcases hu : env.updateResourceErr with _ | e
    · rcases hw : env.waitDeletionErr with _ | e2
      · exact ⟨[Op.waitForDeletion],
          by simp [finalize, finalizeStack, DestroyStack, hdof, hd, hr, hu, hw]⟩
      · exact ⟨[Op.waitForDeletion],
          by simp [finalize, finalizeStack, DestroyStack, hdof, hd, hr, hu, hw]⟩
    · exact ⟨[], by simp [finalize, finalizeStack, DestroyStack, hdof, hd, hr, hu]⟩
  · intro hbad
    rcases hdc : env.destroyErr with _ | e
    · rcases hrc : env.removeStackErr with _ | e2
      · rcases hbad with h | h <;> simp_all
      · simp [finalize, finalizeStack, DestroyStack, hdof, hdc, hrc]
    · simp [finalize, finalizeStack, DestroyStack, hdof, hdc]

/-- Witness for C3 at a concrete input: destroy and remove-stack succeed,
so the full finalization trace is produced, destroy and remove-stack coming
before the finalizer removal and its persist. -/
theorem C3_destroy_before_finalizer_removal_witness :
    ∃ rest,
      (Reconcile { gitRepo := some { commit := "abc" }, destroyOnFinalize := true }
        { deletionTimestampSet := true, finalizers := [pulumiFinalizer] } {}
        { workdirResult := .ok "abc" }).1 =
        [Op.setupGitAuth, Op.setupWorkdir, Op.ensureStack, Op.setEnvs, Op.setSecretEnvs,
          Op.destroy, Op.removeStack, Op.removeFinalizer, Op.updateResource] ++ rest :=
  (C3_destroy_before_finalizer_removal
    { gitRepo := some { commit := "abc" }, destroyOnFinalize := true }
    { deletionTimestampSet := true, finalizers := [pulumiFinalizer] } {}
    { workdirResult := .ok "abc" } { commit := "abc" } "abc"
    rfl rfl rfl rfl rfl rfl rfl rfl (by simp) rfl).1 ⟨rfl, rfl⟩

/-- C7: a pass whose `Up` succeeds persists a status whose
`lastAttemptedCommit` and `lastSuccessfulCommit` both equal the current
revision (with the run's permalink); a pass whose `Up` fails persists a
status that updates `lastAttemptedCommit` (plus state, permalink, resync
time) and keeps `lastSuccessfulCommit` and the outputs at their prior
values. -/
theorem C7_status_commit_recording (spec : StackSpec) (meta : StackMeta)
    (status0 : StackStatus) (env : Env) (repo : InlineGitRepo) (c : String)
    (hrepo : spec.gitRepo = some repo) (hsrc : spec.sourceRef = none)
    (hval : ¬(meta.deletionTimestampSet = false ∧ repo.commit = "" ∧ repo.branch = ""))
    (hga : env.gitAuthErr = none) (hwd : env.workdirResult = .ok c)
    (hens : env.ensureErr = none) (he1 : env.setEnvsErr = none)
    (he2 : env.setSecretEnvsErr = none)
    (hlife : (meta.deletionTimestampSet = false ∧ pulumiFinalizer ∈ meta.finalizers) ∨
      (meta.deletionTimestampSet = true ∧ pulumiFinalizer ∉ meta.finalizers))
    (hns : skipsOnCommitMatch repo status0 c = false)
    (hrf : spec.refresh = false) :
    (∀ o, env.upStatus = .succeeded → env.upErr = none →
      GetStackOutputs env.marshal env.upOutputs = .ok (some o) →
      env.getLatestErr = none → env.updateStatusErr = none →
      Op.writeStatus (successStatus env c o) ∈ (Reconcile spec meta status0 env).1 ∧
      (successStatus env c o).lastUpdate = some
        { state := SucceededStackStateMessage
          lastAttemptedCommit := c
          lastSuccessfulCommit := c
          permalink := env.upPermalink
          lastResyncTime := env.now }) ∧
    (∀ e lu, env.upStatus = .failed → env.upErr = some e → env.updateStatusErr = none →
      status0.lastUpdate = some lu →
      Op.writeStatus (markStackFailed status0 c "" env.now) ∈
          (Reconcile spec meta status0 env).1 ∧
      (markStackFailed status0 c "" env.now).lastUpdate = some
        { lu with
          lastAttemptedCommit := c
          state := FailedStackStateMessage
          permalink := ""
          lastResyncTime := env.now } ∧
      (markStackFailed status0 c "" env.now).outputs = status0.outputs) := by
  have hlc :
      reconcileLifecycleStage spec meta status0 env (some repo) c
          ([Op.setupGitAuth, Op.setupWorkdir] ++ [Op.ensureStack, Op.setEnvs, Op.setSecretEnvs]) =
        reconcileRepoStage spec env status0 (some repo) c
          ([Op.setupGitAuth, Op.setupWorkdir] ++ [Op.ensureStack, Op.setEnvs, Op.setSecretEnvs]) := by
    rcases hlife with ⟨h1, h2⟩ | ⟨h1, h2⟩
    · exact lifecycle_live_finalizer spec meta status0 env (some repo) c _ h1 h2
    · exact lifecycle_deleted_no_finalizer spec meta status0 env (some repo) c _ h1 h2
  have hstage : Reconcile spec meta status0 env =
      reconcileUpStage spec env status0 c
        (if decide (0 < repo.branch.length) = true ∨ repo.continueResyncOnCommitMatch = true then
          { requeueAfterSeconds :=
              clampedResync (decide (0 < repo.branch.length)) repo.continueResyncOnCommitMatch
                spec.resyncFrequencySeconds }
        else {})
        ([Op.setupGitAuth, Op.setupWorkdir] ++ [Op.ensureStack, Op.setEnvs, Op.setSecretEnvs]) := by
    rw [reconcile_git_ok spec meta status0 env repo c hrepo hsrc hval hga hwd,
      afterWorkdir_ok spec meta status0 env (some repo) c _ hens he1 he2, hlc,
      repoStage_noskip spec env status0 repo c _ hns,
      refreshStage_off spec env status0 c _ _ hrf]
  constructor
  · intro o h1 h2 h3 h4 h5
    rw [hstage, upStage_success spec env status0 c _ _ o h1 h2 h3 h4 h5]
    exact ⟨by simp, by simp [successStatus]⟩
  · intro e lu h1 h2 h3 h4
    rw [hstage, upStage_failed spec env status0 c _ _ e h1 h2 h3]
    refine ⟨by simp, ?_, by simp [markStackFailed]⟩
    simp [markStackFailed, h4]

/-- Witness for C7 at a concrete successful run: both commits in the
persisted status equal the resolved revision `abc` and the permalink is
recorded. -/
theorem C7_status_commit_recording_witness :
    Op.writeStatus
        (successStatus
          { workdirResult := .ok "abc"
            upPermalink := "PL"
            now := 7
            upOutputs := [("a", { value := "v" })] } "abc" [("a", "v")]) ∈
      (Reconcile { gitRepo := some { commit := "abc" } }
        { finalizers := [pulumiFinalizer] } {}
        { workdirResult := .ok "abc"
          upPermalink := "PL"
          now := 7
          upOutputs := [("a", { value := "v" })] }).1 ∧
    (successStatus
        { workdirResult := .ok "abc"
          upPermalink := "PL"
          now := 7
          upOutputs := [("a", { value := "v" })] } "abc" [("a", "v")]).lastUpdate = some
      { state := SucceededStackStateMessage
        lastAttemptedCommit := "abc"
        lastSuccessfulCommit := "abc"
        permalink := "PL"
        lastResyncTime := 7 } :=
  (C7_status_commit_recording { gitRepo := some { commit := "abc" } }
    { finalizers := [pulumiFinalizer] } {}
    { workdirResult := .ok "abc"
      upPermalink := "PL"
      now := 7
      upOutputs := [("a", { value := "v" })] }
    { commit := "abc" } "abc" rfl rfl (by simp) rfl rfl rfl rfl rfl
    (Or.inl ⟨rfl, by simp⟩) rfl rfl).1 [("a", "v")] rfl rfl rfl rfl rfl

/-- C9 (code evaluated at the failing input): a successful `Up` with an
EMPTY output set still performs the success status write — the output
translation returns a non-nil empty map, so the `outs == nil` skip branch
never fires.  The pass returns no error. -/
theorem C9_empty_outputs_status_still_written :
    GetStackOutputs (fun s => Except.ok s) [] = .ok (some []) ∧
    Op.writeStatus
        (successStatus
          { workdirResult := .ok "abc"
            upPermalink := "PL"
            now := 3 } "abc" []) ∈
      (Reconcile { gitRepo := some { commit := "abc" } } { finalizers := [pulumiFinalizer] } {}
        { workdirResult := .ok "abc"
          upPermalink := "PL"
          now := 3 }).1 ∧
    (Reconcile { gitRepo := some { commit := "abc" } } { finalizers := [pulumiFinalizer] } {}
      { workdirResult := .ok "abc"
        upPermalink := "PL"
        now := 3 }).2.2 = none := by
  refine ⟨rfl, ?_, ?_⟩ <;> decide

/-- The output translation never returns the nil map on success: the skip
branch of step 5 is unreachable for every output set. -/
theorem GetStackOutputs_ok_never_none (marshal : String → Except String String)
    (outs : List (String × OutputValue)) (o : Option (List (String × String)))
    (h : GetStackOutputs marshal outs = .ok o) : o ≠ none := by
  unfold GetStackOutputs at h
  split at h
  · cases h
  · cases h; simp

/-- C1: a reconciliation pass over a git-sourced Stack with branch tracking
enabled, `continueResyncOnCommitMatch = false`, and the freshly resolved
revision equal to the last successful commit recorded in status performs no
automation operation (no refresh, no up), returns no error, and requeues
after exactly the configured `resyncFrequencySeconds` clamped to a minimum
of 60 seconds (defaulting to 60 when unset). -/
theorem C1_revision_unchanged_skip
    (spec : StackSpec) (meta : StackMeta) (status0 : StackStatus) (env : Env)
    (repo : InlineGitRepo) (c : String) (lu : StackUpdateState)
    (hrepo : spec.gitRepo = some repo) (hsrc : spec.sourceRef = none)
    (hbranch : 0 < repo.branch.length)
    (hcont : repo.continueResyncOnCommitMatch = false)
    (hga : env.gitAuthErr = none) (hwd : env.workdirResult = .ok c)
    (hens : env.ensureErr = none) (he1 : env.setEnvsErr = none)
    (he2 : env.setSecretEnvsErr = none)
    (hdel : meta.deletionTimestampSet = false)
    (hfin : pulumiFinalizer ∈ meta.finalizers)
    (hlu : status0.lastUpdate = some lu)
    (hmatch : lu.lastSuccessfulCommit = c) :
    Op.refresh ∉ (Reconcile spec meta status0 env).1 ∧
    Op.up ∉ (Reconcile spec meta status0 env).1 ∧
    (Reconcile spec meta status0 env).2.1 =
      { requeueAfterSeconds := max 60 spec.resyncFrequencySeconds } ∧
    (Reconcile spec meta status0 env).2.2 = none := by
  have hval : ¬(meta.deletionTimestampSet = false ∧ repo.commit = "" ∧ repo.branch = "") := by
    intro h
    rcases h with ⟨-, -, hb⟩
    rw [hb] at hbranch
    simp at hbranch
  rw [reconcile_git_ok spec meta status0 env repo c hrepo hsrc hval hga hwd,
    afterWorkdir_ok spec meta status0 env (some repo) c _ hens he1 he2,
    lifecycle_live_finalizer spec meta status0 env (some repo) c _ hdel hfin,
    repoStage_skip spec env status0 repo c _ lu hbranch hlu hmatch hcont,
    clampedResync_eq_max]
  refine ⟨by simp, by simp, rfl, rfl⟩

/-- Witness for C1 at a concrete input: branch tracking on `main`,
configured resync 30 seconds (clamped to 60), unchanged commit `abc`. -/
theorem C1_revision_unchanged_skip_witness :
    Op.refresh ∉
      (Reconcile
        { gitRepo := some { branch := "main" }, resyncFrequencySeconds := 30 }
        { finalizers := [pulumiFinalizer] }
        { lastUpdate := some { lastSuccessfulCommit := "abc" } }
        { workdirResult := .ok "abc" }).1 ∧
    Op.up ∉
      (Reconcile
        { gitRepo := some { branch := "main" }, resyncFrequencySeconds := 30 }
        { finalizers := [pulumiFinalizer] }
        { lastUpdate := some { lastSuccessfulCommit := "abc" } }
        { workdirResult := .ok "abc" }).1 ∧
    (Reconcile
        { gitRepo := some { branch := "main" }, resyncFrequencySeconds := 30 }
        { finalizers := [pulumiFinalizer] }
        { lastUpdate := some { lastSuccessfulCommit := "abc" } }
        { workdirResult := .ok "abc" }).2.1 =
      { requeueAfterSeconds := max 60 30 } ∧
    (Reconcile
        { gitRepo := some { branch := "main" }, resyncFrequencySeconds := 30 }
        { finalizers := [pulumiFinalizer] }
        { lastUpdate := some { lastSuccessfulCommit := "abc" } }
        { workdirResult := .ok "abc" }).2.2 = none :=
  C1_revision_unchanged_skip _ _ _ _ _ "abc" _ rfl rfl (by decide) rfl rfl rfl rfl rfl rfl
    rfl (by decide) rfl rfl

/-! ### ResourceRef resolution (`resolveResourceRef`, source lines 609-654) -/

/-- Model of `shared.ResourceSelectorType`. -/
inductive ResourceSelectorType
  | env
  | literal
  | filesystem
  | secret
deriving DecidableEq, Repr

/-- Model of `shared.SecretSelector`: name, optional namespace (empty
defaults to the session's namespace) and key. -/
structure SecretSelector where
  name : String := ""
  nspace : String := ""
  key : String := ""
deriving DecidableEq, Repr

/-- Model of `shared.ResourceRef`: a selector type plus nilable payloads, as
in the source (the payload matching the selector may still be absent). -/
structure ResourceRef where
  selectorType : ResourceSelectorType
  envName : Option String := none
  literalValue : Option String := none
  filePath : Option String := none
  secretRef : Option SecretSelector := none
deriving DecidableEq, Repr

/-- Read-only context for resolution: the process environment
(`os.Getenv`, which returns the empty string for unset variables), the
filesystem (`none` models an I/O error) and the secret store (per
namespace/name, `none` models a missing object). -/
structure ResolveCtx where
  getenv : String → String
  readFile : String → Option String
  getSecret : String → String → Option (List (String × String))
  sessNamespace : String

/-- Association-list lookup used for secret data maps. -/
def lookupData : List (String × String) → String → Option String
  | [], _ => none
  | (k, v) :: rest, key => if key = k then some v else lookupData rest key

/-- `resolveResourceRef`: dispatch on the selector type; error messages
mirror the source (the underlying OS error text is abstracted away). -/
def resolveResourceRef (ctx : ResolveCtx) (ref : ResourceRef) : Except String String :=
  match ref.selectorType with
  | .env =>
    match ref.envName with
    | some n =>
      let resolved := ctx.getenv n
      if resolved = "" then .error ("missing value for environment variable: " ++ n)
      else .ok resolved
    | none => .error "missing env reference in ResourceRef"
  | .literal =>
    match ref.literalValue with
    | some v => .ok v
    | none => .error "missing literal reference in ResourceRef"
  | .filesystem =>
    match ref.filePath with
    | some p =>
      match ctx.readFile p with
      | some contents => .ok contents
      | none => .error ("reading path: " ++ p)
    | none => .error "Missing filesystem reference in ResourceRef"
  | .secret =>
    match ref.secretRef with
    | some s =>
      let ns := if s.nspace = "" then ctx.sessNamespace else s.nspace
      match ctx.getSecret ns s.name with
      | none => .error ("Namespace=" ++ s.nspace ++ " Name=" ++ s.name)
      | some data =>
        match lookupData data s.key with
        | some v => .ok v
        | none =>
          .error ("No key " ++ s.key ++ " found in secret " ++ s.nspace ++ "/" ++ s.name)
    | none => .error "Mising secret reference in ResourceRef"

/-- C8: resolving an absent target fails with an error distinct from the
other variants' errors and carrying the ref's identifying name (env-variable
name, file path, or secret name/key); resolving a present literal always
succeeds with exactly the embedded value. -/
theorem C8_resolveResourceRef_errors (ctx : ResolveCtx) :
    (∀ v ref, ref.selectorType = .literal → ref.literalValue = some v →
      resolveResourceRef ctx ref = .ok v) ∧
    (∀ n ref, ref.selectorType = .env → ref.envName = some n → ctx.getenv n = "" →
      resolveResourceRef ctx ref =
        .error ("missing value for environment variable: " ++ n)) ∧
    (∀ p ref, ref.selectorType = .filesystem → ref.filePath = some p →
      ctx.readFile p = none →
      resolveResourceRef ctx ref = .error ("reading path: " ++ p)) ∧
    (∀ s ref, ref.selectorType = .secret → ref.secretRef = some s →
      ctx.getSecret (if s.nspace = "" then ctx.sessNamespace else s.nspace) s.name = none →
      resolveResourceRef ctx ref = .error ("Namespace=" ++ s.nspace ++ " Name=" ++ s.name)) ∧
    (∀ s data ref, ref.selectorType = .secret → ref.secretRef = some s →
      ctx.getSecret (if s.nspace = "" then ctx.sessNamespace else s.nspace) s.name =
        some data →
      lookupData data s.key = none →
      resolveResourceRef ctx ref =
        .error ("No key " ++ s.key ++ " found in secret " ++ s.nspace ++ "/" ++ s.name)) := by
  refine ⟨?_, ?_, ?_, ?_, ?_⟩
  · intro v ref h1 h2
    simp [resolveResourceRef, h1, h2]
  · intro n ref h1 h2 h3
    simp [resolveResourceRef, h1, h2, h3]
  · intro p ref h1 h2 h3
    simp [resolveResourceRef, h1, h2, h3]
  · intro s ref h1 h2 h3
    simp [resolveResourceRef, h1, h2, h3]
  · intro s data ref h1 h2 h3 h4
    simp [resolveResourceRef, h1, h2, h3, h4]

/-- Witness for C8 at concrete inputs: a literal resolves to its embedded
value and an unset environment variable yields the attributable error. -/
theorem C8_resolveResourceRef_errors_witness :
    resolveResourceRef
        { getenv := fun _ => "", readFile := fun _ => none, getSecret := fun _ _ => none,
          sessNamespace := "ns" }
        { selectorType := .literal, literalValue := some "lit" } = .ok "lit" ∧
    resolveResourceRef
        { getenv := fun _ => "", readFile := fun _ => none, getSecret := fun _ _ => none,
          sessNamespace := "ns" }
        { selectorType := .env, envName := some "PATHX" } =
      .error ("missing value for environment variable: " ++ "PATHX") :=
  ⟨(C8_resolveResourceRef_errors
      { getenv := fun _ => "", readFile := fun _ => none, getSecret := fun _ _ => none,
        sessNamespace := "ns" }).1 "lit"
      { selectorType := .literal, literalValue := some "lit" } rfl rfl,
    (C8_resolveResourceRef_errors
      { getenv := fun _ => "", readFile := fun _ => none, getSecret := fun _ _ => none,
        sessNamespace := "ns" }).2.1 "PATHX"
      { selectorType := .env, envName := some "PATHX" } rfl rfl rfl⟩

/-! ### Artifact download verification (`SetupWorkDirWithSource`,
source lines 782-798) -/

/-- The two digest algorithms the artifact path supports. -/
inductive HashAlgo
  | sha1
  | sha256
deriving DecidableEq, Repr

/-- Steps of the artifact source path that matter for ordering. -/
inductive SourceOp
  | download
  | computeChecksum (algo : HashAlgo)
  | untarArchive
deriving DecidableEq, Repr

/-- Abstract hex-digest functions standing in for `crypto/sha1` and
`crypto/sha256` over the downloaded bytes. -/
structure ArtifactCtx where
  sha1hex : List Nat → String
  sha256hex : List Nat → String

/-- The checksum verification and extraction portion of
`SetupWorkDirWithSource`: the hasher is SHA-256 unless the recorded
checksum has exactly 40 characters (legacy SHA-1); the digest of the
downloaded bytes is compared against the recorded checksum and a mismatch
fails with an integrity error before any extraction; only on a match is the
archive untarred and the producer-reported revision returned as-is. -/
def verifyArtifactAndExtract (ctx : ArtifactCtx) (bytes : List Nat)
    (checksum revision : String) : List SourceOp × Except String String :=
  let algo : HashAlgo := if checksum.length = 40 then .sha1 else .sha256
  let digest : String :=
    match algo with
    | .sha1 => ctx.sha1hex bytes
    | .sha256 => ctx.sha256hex bytes
  let tr := [SourceOp.download, SourceOp.computeChecksum algo]
  if digest ≠ checksum then
    (tr, .error ("computed checksum of artifact \"" ++ digest ++
      "\" does not match checksum recorded \"" ++ checksum ++ "\""))
  else
    (tr ++ [SourceOp.untarArchive], .ok revision)

/-- C6: the digest is computed and compared before any extraction — on a
mismatch the pass fails with an integrity error and no untar step occurs —
and the algorithm is selected by the recorded checksum's length: exactly 40
characters selects SHA-1, any other length SHA-256. -/
theorem C6_checksum_before_extract (ctx : ArtifactCtx) (bytes : List Nat)
    (checksum revision : String) :
    (checksum.length = 40 →
      SourceOp.computeChecksum HashAlgo.sha1 ∈
        (verifyArtifactAndExtract ctx bytes checksum revision).1) ∧
    (checksum.length ≠ 40 →
      SourceOp.computeChecksum HashAlgo.sha256 ∈
        (verifyArtifactAndExtract ctx bytes checksum revision).1) ∧
    (checksum.length = 40 → ctx.sha1hex bytes ≠ checksum →
      (∃ e, (verifyArtifactAndExtract ctx bytes checksum revision).2 = .error e) ∧
      SourceOp.untarArchive ∉ (verifyArtifactAndExtract ctx bytes checksum revision).1) ∧
    (checksum.length ≠ 40 → ctx.sha256hex bytes ≠ checksum →
      (∃ e, (verifyArtifactAndExtract ctx bytes checksum revision).2 = .error e) ∧
      SourceOp.untarArchive ∉ (verifyArtifactAndExtract ctx bytes checksum revision).1) ∧
    (checksum.length = 40 → ctx.sha1hex bytes = checksum →
      (verifyArtifactAndExtract ctx bytes checksum revision).1 =
        [SourceOp.download, SourceOp.computeChecksum HashAlgo.sha1,
          SourceOp.untarArchive] ∧
      (verifyArtifactAndExtract ctx bytes checksum revision).2 = .ok revision) := by
  refine ⟨?_, ?_, ?_, ?_, ?_⟩
  · intro h40
    simp [verifyArtifactAndExtract, h40]
    split <;> simp
  · intro h40
    simp [verifyArtifactAndExtract, h40]
    split <;> simp
  · intro h40 hneq
    constructor
    · refine ⟨"computed checksum of artifact \"" ++ ctx.sha1hex bytes ++
        "\" does not match checksum recorded \"" ++ checksum ++ "\"", ?_⟩
      simp [verifyArtifactAndExtract, h40, hneq]
    · simp [verifyArtifactAndExtract, h40, hneq]
  · intro h40 hneq
    constructor
    · refine ⟨"computed checksum of artifact \"" ++ ctx.sha256hex bytes ++
        "\" does not match checksum recorded \"" ++ checksum ++ "\"", ?_⟩
      simp [verifyArtifactAndExtract, h40, hneq]
    · simp [verifyArtifactAndExtract, h40, hneq]
  · intro h40 heq
    constructor <;> simp [verifyArtifactAndExtract, h40, heq]

/-- Witness for C6 at a concrete input: a 40-character recorded checksum
selects SHA-1, and a mismatching digest is rejected without extraction. -/
theorem C6_checksum_before_extract_witness :
    (∃ e,
      (verifyArtifactAndExtract
        { sha1hex := fun _ => "deadbeef", sha256hex := fun _ => "nope" } [1, 2, 3]
        (String.mk (List.replicate 40 'a')) "rev1").2 = .error e) ∧
    SourceOp.untarArchive ∉
      (verifyArtifactAndExtract
        { sha1hex := fun _ => "deadbeef", sha256hex := fun _ => "nope" } [1, 2, 3]
        (String.mk (List.replicate 40 'a')) "rev1").1 :=
  (C6_checksum_before_extract
    { sha1hex := fun _ => "deadbeef", sha256hex := fun _ => "nope" } [1, 2, 3]
    (String.mk (List.replicate 40 'a')) "rev1").2.2.1 (by decide) (by decide)

/-! ### Tar extraction (`untar`, source lines 855-934)

Strings are modelled as `List Char`; a filesystem path is the list of its
components from the root (`PathC`).  The filesystem is an association list
from paths to entry kinds; `lookupFS` finds the most recent entry.  Go's
`filepath.Join(dir, rel)` on Unix is `Clean(dir + "/" + rel)`; with `dir`
an absolute, already-clean path this is `cleanInto dir (rel split on '/')`,
where `Clean` drops empty and `.` components and lets `..` pop the last
component. -/

/-- A filesystem path as its components from the root. -/
abbrev PathC := List (List Char)

/-- Kind of a filesystem entry. -/
inductive FKind
  | dir
  | file
deriving DecidableEq, Repr

/-- The filesystem: an association list from paths to kinds (most recent
entry first). -/
abbrev FS := List (PathC × FKind)

/-- Look a path up in the filesystem. -/
def lookupFS : FS → PathC → Option FKind
  | [], _ => none
  | (q, k) :: rest, p => if p = q then some k else lookupFS rest p

/-- Inner loop of `os.MkdirAll`: ensure every prefix (shortest first) is a
directory, creating missing ones; fail if some prefix exists as a file. -/
def mkdirAllGo : FS → List PathC → FS × Bool
  | fs, [] => (fs, true)
  | fs, q :: rest =>
    match lookupFS fs q with
    | some .dir => mkdirAllGo fs rest
    | some .file => (fs, false)
    | none => mkdirAllGo ((q, FKind.dir) :: fs) rest

/-- `os.MkdirAll`: create the directory and all missing ancestors. -/
def mkdirAll (fs : FS) (p : PathC) : FS × Bool :=
  mkdirAllGo fs p.inits

/-- `os.OpenFile(abs, O_RDWR|O_CREATE|O_TRUNC, perm)`: fails if the path is
an existing directory or its parent is not a directory; otherwise creates
(or truncates) the file. -/
def openFileCreate (fs : FS) (p : PathC) : Option FS :=
  match lookupFS fs p with
  | some .dir => none
  | some .file => some ((p, FKind.file) :: fs)
  | none =>
    match lookupFS fs p.dropLast with
    | some .dir => some ((p, FKind.file) :: fs)
    | _ => none

/-- `validRelPath` from `untar`: rejects the empty name, names containing a
backslash, absolute names, and names containing the substring `"../"`. -/
def validRelPath (p : List Char) : Bool :=
  !(decide (p = []) || decide ('\\' ∈ p) || decide (['/'] <+: p)
    || decide (['.', '.', '/'] <:+: p))

/-- `Clean` of `base ++ components` for an absolute, already clean `base`:
empty and `.` components vanish, `..` pops the last component. -/
def cleanInto (base : PathC) (comps : List (List Char)) : PathC :=
  match comps with
  | [] => base
  | c :: rest =>
    if c = [] ∨ c = ['.'] then cleanInto base rest
    else if c = ['.', '.'] then cleanInto base.dropLast rest
    else cleanInto (base ++ [c]) rest

/-- `filepath.Join(dir, filepath.FromSlash(name))` on Unix. -/
def filepathJoin (dir : PathC) (name : List Char) : PathC :=
  cleanInto dir (name.splitOn '/')

/-- The tar entry types `untar` distinguishes. -/
inductive EntryType
  | regular
  | directory
  | other
deriving DecidableEq, Repr

/-- One archive entry: its name and type (contents are irrelevant to path
safety). -/
structure TarEntry where
  name : List Char
  typ : EntryType
deriving DecidableEq, Repr

/-- State of the extraction loop: the filesystem and the `madeDir` cache. -/
structure UntarState where
  fs : FS
  madeDir : List PathC
deriving DecidableEq, Repr

/-- Processing of one tar entry by `untar`'s loop body. -/
def untarEntry (dir : PathC) (st : UntarState) (e : TarEntry) :
    UntarState × Option String :=
  if validRelPath e.name = false then (st, some "tar contained invalid name error")
  else
    let abs := filepathJoin dir e.name
    match e.typ with
    | .regular =>
      let d := abs.dropLast
      if d ∈ st.madeDir then
        match openFileCreate st.fs abs with
        | none => (st, some "error writing file")
        | some fs2 => ({ st with fs := fs2 }, none)
      else
        let m := mkdirAll st.fs d
        if m.2 = false then ({ st with fs := m.1 }, some "mkdir error")
        else
          match openFileCreate m.1 abs with
          | none => (⟨m.1, d :: st.madeDir⟩, some "error writing file")
          | some fs2 => (⟨fs2, d :: st.madeDir⟩, none)
    | .directory =>
      let m := mkdirAll st.fs abs
      if m.2 = false then ({ st with fs := m.1 }, some "mkdir error")
      else (⟨m.1, abs :: st.madeDir⟩, none)
    | .other => (st, some "tar file entry contained unsupported file type")

/-- The extraction loop: stop at the first failing entry. -/
def untarGo (dir : PathC) : UntarState → List TarEntry → UntarState × Option String
  | st, [] => (st, none)
  | st, e :: rest =>
    match untarEntry dir st e with
    | (st', none) => untarGo dir st' rest
    | (st', some msg) => (st', some msg)

/-- The initial filesystem: the destination root and all its ancestors
exist as directories (as `os.MkdirTemp` guarantees), nothing else. -/
def initFS (dir : PathC) : FS := dir.inits.map (fun q => (q, FKind.dir))

/-- `untar`: extract the entries into `dir`, returning the resulting
filesystem and the error, if any. -/
def untar (dir : PathC) (entries : List TarEntry) : FS × Option String :=
  let r := untarGo dir ⟨initFS dir, []⟩ entries
  (r.1.fs, r.2)

theorem exists_split_of_mem_dropLast {α : Type} {a : α} :
    ∀ {l : List α}, a ∈ l.dropLast → ∃ s t, l = s ++ a :: t ∧ t ≠ [] := by
  intro l
  induction l with
  | nil => intro h; simp at h
  | cons b l' ih =>
    intro h
    cases hl : l' with
    | nil => subst hl; simp at h
    | cons c t' =>
      subst hl
      rw [List.dropLast_cons₂] at h
      rcases List.mem_cons.mp h with rfl | h2
      · exact ⟨[], c :: t', rfl, by simp⟩
      · obtain ⟨s, t, hst, ht⟩ := ih h2
        exact ⟨b :: s, t, by simp [hst], ht⟩

theorem intercalate_middle_infix {α : Type} (x : α) (m : List α) :
    ∀ (pre suf : List (List α)), suf ≠ [] →
      (m ++ [x]) <:+: List.intercalate [x] (pre ++ m :: suf) := by
  intro pre
  induction pre with
  | nil =>
    intro suf hsuf
    cases suf with
    | nil => exact absurd rfl hsuf
    | cons s ss =>
      refine ⟨[], (List.intersperse [x] (s :: ss)).flatten, ?_⟩
      simp [List.intercalate, List.intersperse]
  | cons a pre' ih =>
    intro suf hsuf
    have hne : pre' ++ m :: suf ≠ [] := by simp
    obtain ⟨s2, t2, h2⟩ := ih suf hsuf
    cases hr : pre' ++ m :: suf with
    | nil => exact absurd hr hne
    | cons b t =>
      refine ⟨a ++ [x] ++ s2, t2, ?_⟩
      rw [show a :: pre' ++ m :: suf = a :: (pre' ++ m :: suf) from rfl, hr]
      rw [hr] at h2
      simp only [List.intercalate, List.intersperse] at h2 ⊢
      simp [h2]

theorem parent_infix_of_mem_dropLast_splitOn (name : List Char)
    (h : ['.', '.'] ∈ (name.splitOn '/').dropLast) :
    ['.', '.', '/'] <:+: name := by
  obtain ⟨pre, suf, hsplit, hsuf⟩ := exists_split_of_mem_dropLast h
  have hre : List.intercalate ['/'] (name.splitOn '/') = name :=
    List.intercalate_splitOn name '/'
  have hinf := intercalate_middle_infix '/' ['.', '.'] pre suf hsuf
  rw [← hsplit, hre] at hinf
  exact hinf

theorem splitOn_no_middle_parent (name : List Char)
    (h : ¬ ['.', '.', '/'] <:+: name) :
    ∀ c ∈ (name.splitOn '/').dropLast, c ≠ ['.', '.'] := by
  intro c hc hceq
  subst hceq
  exact h (parent_infix_of_mem_dropLast_splitOn name hc)

theorem cleanInto_shape : ∀ (comps : List (List Char)) (base : PathC),
    (∀ c ∈ comps.dropLast, c ≠ ['.', '.']) →
    cleanInto base comps = base.dropLast ∨ base <+: cleanInto base comps := by
  intro comps
  induction comps with
  | nil => intro base _; right; exact List.prefix_refl base
  | cons c rest ih =>
    intro base h
    by_cases hrest : rest = []
    · subst hrest
      by_cases h1 : c = [] ∨ c = ['.']
      · right
        unfold cleanInto
        rw [if_pos h1]
        exact List.prefix_refl base
      · by_cases h2 : c = ['.', '.']
        · left
          unfold cleanInto
          rw [if_neg h1, if_pos h2]
          rfl
        · right
          unfold cleanInto
          rw [if_neg h1, if_neg h2]
          exact List.prefix_append base [c]
    · have hc : c ≠ ['.', '.'] := by
        apply h
        cases rest with
        | nil => exact absurd rfl hrest
        | cons c2 r2 => rw [List.dropLast_cons₂]; exact List.mem_cons_self c _
      have hrh : ∀ x ∈ rest.dropLast, x ≠ ['.', '.'] := by
        intro x hx
        apply h
        cases rest with
        | nil => simp at hx
        | cons c2 r2 =>
          rw [List.dropLast_cons₂]
          exact List.mem_cons_of_mem c hx
      unfold cleanInto
      by_cases h1 : c = [] ∨ c = ['.']
      · rw [if_pos h1]; exact ih base hrh
      · rw [if_neg h1, if_neg hc]
        rcases ih (base ++ [c]) hrh with hl | hp
        · right
          rw [hl, List.dropLast_concat]
        · right
          exact (List.prefix_append base [c]).trans hp

theorem filepathJoin_shape (dir : PathC) (name : List Char)
    (hv : validRelPath name = true) :
    filepathJoin dir name = dir.dropLast ∨ dir <+: filepathJoin dir name := by
  have hinf : ¬ ['.', '.', '/'] <:+: name := by
    unfold validRelPath at hv
    simp at hv
    tauto
  exact cleanInto_shape (name.splitOn '/') dir (splitOn_no_middle_parent name hinf)

/-- Safety invariant: every prefix of the destination root is a directory,
and every file lies strictly below the root. -/
def SafeFS (dir : PathC) (fs : FS) : Prop :=
  (∀ q, q <+: dir → lookupFS fs q = some FKind.dir) ∧
  (∀ p, lookupFS fs p = some FKind.file → dir <+: p ∧ dir ≠ p)

theorem lookupFS_cons (q : PathC) (k : FKind) (fs : FS) (p : PathC) :
    lookupFS ((q, k) :: fs) p = if p = q then some k else lookupFS fs p := rfl

theorem SafeFS_insert_dir (dir : PathC) (fs : FS) (q : PathC)
    (hs : SafeFS dir fs) : SafeFS dir ((q, FKind.dir) :: fs) := by
  constructor
  · intro r hr
    rw [lookupFS_cons]
    split
    · rfl
    · exact hs.1 r hr
  · intro p hp
    rw [lookupFS_cons] at hp
    split at hp
    · cases hp
    · exact hs.2 p hp

theorem mkdirAllGo_safe (dir : PathC) :
    ∀ (qs : List PathC) (fs : FS), SafeFS dir fs → SafeFS dir (mkdirAllGo fs qs).1 := by
  intro qs
  induction qs with
  | nil => intro fs hs; exact hs
  | cons q rest ih =>
    intro fs hs
    unfold mkdirAllGo
    cases hl : lookupFS fs q with
    | none => exact ih _ (SafeFS_insert_dir dir fs q hs)
    | some k =>
      cases k with
      | dir => exact ih _ hs
      | file => exact hs

theorem mkdirAll_safe (dir : PathC) (fs : FS) (p : PathC) (hs : SafeFS dir fs) :
    SafeFS dir (mkdirAll fs p).1 :=
  mkdirAllGo_safe dir p.inits fs hs

theorem openFileCreate_safe (dir : PathC) (fs fs2 : FS) (p : PathC)
    (hs : SafeFS dir fs) (hshape : p = dir.dropLast ∨ dir <+: p)
    (h : openFileCreate fs p = some fs2) : SafeFS dir fs2 := by
  unfold openFileCreate at h
  cases hl : lookupFS fs p with
  | some k =>
    cases k with
    | dir => rw [hl] at h; cases h
    | file =>
      rw [hl] at h
      cases h
      have hp := hs.2 p hl
      constructor
      · intro r hr
        rw [lookupFS_cons]
        split
        · next heq =>
          subst heq
          exact absurd (hs.1 r hr) (by rw [hl]; simp)
        · exact hs.1 r hr
      · intro r hr
        rw [lookupFS_cons] at hr
        split at hr
        · next heq => subst heq; exact hp
        · exact hs.2 r hr
  | none =>
    rw [hl] at h
    cases hpl : lookupFS fs p.dropLast with
    | none => rw [hpl] at h; cases h
    | some k =>
      cases k with
      | file => rw [hpl] at h; cases h
      | dir =>
        rw [hpl] at h
        cases h
        have hp : dir <+: p ∧ dir ≠ p := by
          rcases hshape with h1 | h1
          · exfalso
            have : lookupFS fs p = some FKind.dir := by
              rw [h1]
              exact hs.1 dir.dropLast (List.dropLast_prefix dir)
            rw [this] at hl
            cases hl
          · refine ⟨h1, ?_⟩
            intro heq
            subst heq
            have : lookupFS fs dir = some FKind.dir := hs.1 dir (List.prefix_refl dir)
            rw [this] at hl
            cases hl
        constructor
        · intro r hr
          rw [lookupFS_cons]
          split
          · next heq =>
            subst heq
            exfalso
            have : lookupFS fs r = some FKind.dir := hs.1 r hr
            rw [this] at hl
            cases hl
          · exact hs.1 r hr
        · intro r hr
          rw [lookupFS_cons] at hr
          split at hr
          · next heq => subst heq; exact hp
          · exact hs.2 r hr

theorem untarEntry_safe (dir : PathC) (st : UntarState) (e : TarEntry)
    (hs : SafeFS dir st.fs) : SafeFS dir (untarEntry dir st e).1.fs := by
  unfold untarEntry
  cases hv : validRelPath e.name with
  | false => simpa using hs
  | true =>
    rw [if_neg (show ¬(true = false) by simp)]
    have hshape := filepathJoin_shape dir e.name hv
    cases e.typ with
    | regular =>
      dsimp only
      by_cases hmade : (filepathJoin dir e.name).dropLast ∈ st.madeDir
      · rw [if_pos hmade]
        cases ho : openFileCreate st.fs (filepathJoin dir e.name) with
        | none => simpa using hs
        | some fs2 =>
          simpa using openFileCreate_safe dir st.fs fs2 _ hs hshape ho
      · rw [if_neg hmade]
        have hm := mkdirAll_safe dir st.fs (filepathJoin dir e.name).dropLast hs
        by_cases hb : (mkdirAll st.fs (filepathJoin dir e.name).dropLast).2 = false
        · rw [if_pos hb]
          simpa using hm
        · rw [if_neg hb]
          cases ho : openFileCreate (mkdirAll st.fs (filepathJoin dir e.name).dropLast).1
              (filepathJoin dir e.name) with
          | none => simpa using hm
          | some fs2 =>
            simpa using openFileCreate_safe dir _ fs2 _ hm hshape ho
    | directory =>
      dsimp only
      have hm := mkdirAll_safe dir st.fs (filepathJoin dir e.name) hs
      by_cases hb : (mkdirAll st.fs (filepathJoin dir e.name)).2 = false
      · rw [if_pos hb]
        simpa using hm
      · rw [if_neg hb]
        simpa using hm
    | other => simpa using hs

theorem untarGo_safe (dir : PathC) :
    ∀ (entries : List TarEntry) (st : UntarState), SafeFS dir st.fs →
      SafeFS dir (untarGo dir st entries).1.fs := by
  intro entries
  induction entries with
  | nil => intro st hs; exact hs
  | cons e rest ih =>
    intro st hs
    unfold untarGo
    have hstep := untarEntry_safe dir st e hs
    cases hu : untarEntry dir st e with
    | mk st' msg =>
      rw [hu] at hstep
      cases msg with
      | none => exact ih st' hstep
      | some m => exact hstep

theorem lookupFS_map_dir (l : List PathC) (q : PathC) (hq : q ∈ l) :
    lookupFS (l.map (fun r => (r, FKind.dir))) q = some FKind.dir := by
  induction l with
  | nil => simp at hq
  | cons a l' ih =>
    rcases List.mem_cons.mp hq with rfl | h2
    · simp [lookupFS]
    · simp only [List.map_cons, lookupFS]
      split
      · rfl
      · exact ih h2

theorem lookupFS_map_dir_ne_file (l : List PathC) (p : PathC) :
    lookupFS (l.map (fun r => (r, FKind.dir))) p ≠ some FKind.file := by
  induction l with
  | nil => simp [lookupFS]
  | cons a l' ih =>
    simp only [List.map_cons, lookupFS]
    split
    · simp
    · exact ih

theorem initFS_safe (dir : PathC) : SafeFS dir (initFS dir) := by
  constructor
  · intro q hq
    exact lookupFS_map_dir dir.inits q ((List.mem_inits q dir).mpr hq)
  · intro p hp
    exact absurd hp (lookupFS_map_dir_ne_file dir.inits p)

theorem untar_safety (dir : PathC) (entries : List TarEntry) (p : PathC)
    (hp : lookupFS (untar dir entries).1 p = some FKind.file) :
    dir <+: p ∧ dir ≠ p := by
  have hs := untarGo_safe dir entries ⟨initFS dir, []⟩ (initFS_safe dir)
  exact hs.2 p hp

theorem untarEntry_ok_valid (dir : PathC) (st : UntarState) (e : TarEntry)
    (st' : UntarState) (h : untarEntry dir st e = (st', none)) :
    validRelPath e.name = true ∧ e.typ ≠ EntryType.other := by
  unfold untarEntry at h
  by_cases hv : validRelPath e.name = false
  · rw [if_pos hv] at h
    simp at h
  · constructor
    · simpa using hv
    · intro hty
      rw [if_neg hv, hty] at h
      simp at h

theorem untarGo_err_of_bad (dir : PathC) :
    ∀ (entries : List TarEntry) (st : UntarState),
      (∃ e ∈ entries, validRelPath e.name = false ∨ e.typ = EntryType.other) →
      (untarGo dir st entries).2 ≠ none := by
  intro entries
  induction entries with
  | nil => intro st h; simp at h
  | cons e rest ih =>
    intro st h
    unfold untarGo
    cases hu : untarEntry dir st e with
    | mk st' msg =>
      cases msg with
      | some m => simp
      | none =>
        have hok := untarEntry_ok_valid dir st e st' hu
        rcases h with ⟨e2, he2, hbad⟩
        rcases List.mem_cons.mp he2 with rfl | h2
        · rcases hbad with hb | hb
          · rw [hok.1] at hb
            cases hb
          · exact absurd hb hok.2
        · exact ih st' ⟨e2, h2, hbad⟩

/-- C5 (amended): extraction rejects with an error any archive containing
an entry whose name is empty, absolute, holds a backslash, or holds the
substring `"../"`, or whose type is neither regular file nor directory (an
entry that merely IS, or ends with, a bare `..` segment escapes the test);
and for every crafted archive, every file in the resulting filesystem lies
strictly below the destination root — no file is ever written outside it. -/
theorem C5_tar_rejects_and_contains (dir : PathC) (entries : List TarEntry) :
    ((∃ e ∈ entries, validRelPath e.name = false ∨ e.typ = EntryType.other) →
      (untar dir entries).2 ≠ none) ∧
    (∀ p, lookupFS (untar dir entries).1 p = some FKind.file → dir <+: p ∧ dir ≠ p) := by
  constructor
  · intro h
    exact untarGo_err_of_bad dir entries ⟨initFS dir, []⟩ h
  · intro p hp
    exact untar_safety dir entries p hp

/-- C5 (counterexample): the entry named `..` consists of exactly a
parent-directory traversal segment, yet `validRelPath` accepts it (the
source only tests for the substring `"../"`) and extraction of an archive
holding it as a directory entry succeeds without error — contradicting
"extraction rejects any entry whose name contains a parent-directory
traversal segment". -/
theorem C5_parent_segment_not_rejected :
    validRelPath ['.', '.'] = true ∧
    (untar [['t', 'm', 'p'], ['w', 'k']]
      [⟨['.', '.'], EntryType.directory⟩]).2 = none := by decide

/-- Witness for C5 at a concrete input: an archive with the single entry
`../e` is rejected. -/
theorem C5_tar_rejects_and_contains_witness :
    (untar [['t', 'm', 'p'], ['w', 'k']]
      [⟨['.', '.', '/', 'e'], EntryType.regular⟩]).2 ≠ none :=
  (C5_tar_rejects_and_contains [['t', 'm', 'p'], ['w', 'k']]
    [⟨['.', '.', '/', 'e'], EntryType.regular⟩]).1
    ⟨⟨['.', '.', '/', 'e'], EntryType.regular⟩, by decide, Or.inl (by decide)⟩

end StackModel
